import Mathlib

/-
Formal model of `src/python/model_server.py` from himodj/bloodcell-visionary.

The Python module is a Flask service that loads a serialized Keras model
through a chain of loading strategies and serves image-classification
requests.  The definitions below are a shallow embedding of the functions
the verified claims are about:

* `load_model` / `load_model_route`    (lines 49-124 and 547-575),
* the strategy-chain loop              (lines 102-113, `run_loading_methods`),
* `predict_image` / `predict_route`    (lines 420-486 and 577-601),
* `clean_config_advanced`              (lines 204-233),
* the image-resize step of `predict_image` (line 442).

External effects (the filesystem, the Keras runtime, base64/PIL decoding)
are parameterized by small environment records: `LoadEnv.path_exists`
models `os.path.exists(model_path)`, `LoadEnv.outcome` models what each
loading strategy does when invoked (returns a model, returns False, or
raises), `PredictEnv.decode_error` models a decoding exception and
`PredictEnv.model_output` models `default_model.predict(batch)[0]`.
Python floats are modelled as rationals; a raised exception is modelled
as `none` / `Except.error`.
-/

namespace ModelServer

/-- Class labels, model_server.py lines 37-38: a fixed ordered list of 8 labels. -/
def class_labels : List String :=
  ["IG Immature White Cell", "Basophil", "Eosinophil", "Erythroblast",
   "Lymphocyte", "Monocyte", "Neutrophil", "Platelet"]

/-- The four loading strategies of `load_model`, lines 79-100, in source order. -/
inductive Strategy where
  | standalone_keras
  | tf_keras
  | legacy_keras
  | direct_keras_import
deriving DecidableEq

/-- The `loading_methods` list of `load_model` (lines 79-100): fixed priority order. -/
def loading_methods : List Strategy :=
  [.standalone_keras, .tf_keras, .legacy_keras, .direct_keras_import]

/-- What one invocation of a loading strategy does: succeed (installing a model,
represented by an opaque handle), return `False`, or raise an exception. -/
inductive StratOutcome where
  | ok (model : Nat)
  | fail
  | exn
deriving DecidableEq

/-- Whether a strategy outcome is a success. -/
def StratOutcome.isOk : StratOutcome → Bool
  | .ok _ => true
  | .fail => false
  | .exn => false

/-- Environment of one `load_model` call: whether `os.path.exists(model_path)`
holds (line 65) and what each strategy does when invoked (lines 102-113). -/
structure LoadEnv where
  path_exists : Bool
  outcome : Strategy → StratOutcome

/-- The module-level mutable state of model_server.py (lines 30-32):
`default_model`, `default_model_path`, `default_model_loaded`. -/
structure ServerState where
  default_model : Option Nat
  default_model_path : Option String
  default_model_loaded : Bool
deriving DecidableEq

/-- The `for method in loading_methods` loop of `load_model` (lines 102-113):
invoke each strategy in order; a success stops the loop; a `False` return or a
raised exception (caught by the per-method `except`, lines 111-113) advances to
the next strategy.  Returns the list of strategies actually attempted and the
model produced by the first succeeding strategy, if any. -/
def run_loading_methods (out : Strategy → StratOutcome) :
    List Strategy → List Strategy × Option Nat
  | [] => ([], none)
  | s :: rest =>
    match out s with
    | .ok m => ([s], some m)
    | _ =>
      let r := run_loading_methods out rest
      (s :: r.1, r.2)

/-- Embedding of `load_model` (lines 49-124) for a caller-supplied path (the
`model_path is None` default-path resolution of lines 55-63 is not exercised by
the routes, which always pass a path).  Line 51 resets `default_model_loaded`
before anything else; lines 65-67 return `False` when the file does not exist;
lines 102-113 run the strategy chain; lines 108-110 record the path and set the
loaded flag on success; lines 115-119 return `False` on exhaustion.  The result
is `(returned bool, new module state, strategies attempted)`. -/
def load_model (env : LoadEnv) (st : ServerState) (model_path : String) :
    Bool × ServerState × List Strategy :=
  let st1 : ServerState := { st with default_model_loaded := false }
  if env.path_exists = false then
    (false, st1, [])
  else
    let r := run_loading_methods env.outcome loading_methods
    match r.2 with
    | some m =>
      (true,
       { default_model := some m
         default_model_path := some model_path
         default_model_loaded := true },
       r.1)
    | none => (false, st1, r.1)

/-- The JSON body returned by the `/load_model` route (lines 547-575); keys that
a branch does not emit are `none`. -/
structure LoadResponse where
  success : Bool
  error : Option String
  loaded : Option Bool
  path : Option String
deriving DecidableEq

/-- Embedding of `load_model_route` (lines 547-575).  A missing or empty
`model_path` yields the "No model path provided" response (lines 554-555);
otherwise `load_model` runs and the route reports either
`{success: true, loaded: true, path}` (line 563) or
`{success: false, error: "Failed to load model with any available method",
loaded: false, path}` (lines 565-570). -/
def load_model_route (env : LoadEnv) (st : ServerState)
    (body_model_path : Option String) :
    LoadResponse × ServerState × List Strategy :=
  match body_model_path with
  | none =>
    (⟨false, some "No model path provided", none, none⟩, st, [])
  | some p =>
    if p = "" then
      (⟨false, some "No model path provided", none, none⟩, st, [])
    else
      let r := load_model env st p
      if r.1 then
        (⟨true, none, some true, some p⟩, r.2.1, r.2.2)
      else
        (⟨false, some "Failed to load model with any available method",
          some false, some p⟩, r.2.1, r.2.2)

/-- First index of the maximum entry, accumulator form: `np.argmax` keeps the
earliest index among equal maxima, so the accumulator is replaced only on a
strictly greater value. -/
def np_argmax_aux : List Rat → Nat → Nat → Rat → Nat
  | [], _, best, _ => best
  | x :: rest, i, best, bestv =>
    if bestv < x then np_argmax_aux rest (i + 1) i x
    else np_argmax_aux rest (i + 1) best bestv

/-- Model of `np.argmax` on a vector (line 466); `np.argmax` of an empty vector
raises, which the caller `classify_output` handles separately. -/
def np_argmax : List Rat → Nat
  | [] => 0
  | x :: rest => np_argmax_aux rest 1 0 x

/-- The success payload built by `predict_image` (lines 473-478). -/
structure PredictionOut where
  cell_type : String
  confidence : Rat
  all_probabilities : List Rat
  class_labels : List String
deriving DecidableEq

/-- The classification tail of `predict_image` (lines 462-478): argmax over
`predictions[0]`, then `class_labels[predicted_class_idx]` (line 467) with
Python's `IndexError: list index out of range` when the index is out of bounds,
then the confidence lookup (line 468).  A raised exception propagates out of
`predict_image` (lines 479-486 re-raise), modelled as `Except.error`. -/
def classify_output (predictions0 : List Rat) : Except String PredictionOut :=
  match predictions0 with
  | [] => .error "attempt to get argmax of an empty sequence"
  | _ =>
    let idx := np_argmax predictions0
    match class_labels.get? idx with
    | none => .error "list index out of range"
    | some lab =>
      match predictions0.get? idx with
      | none => .error "index out of bounds"
      | some c => .ok ⟨lab, c, predictions0, class_labels⟩

/-- Environment of one predict call: whether image decoding (line 434) raises,
and the model's output row `predictions[0]` (lines 463-466). -/
structure PredictEnv where
  decode_error : Option String
  model_output : List Rat

/-- Embedding of `predict_image` (lines 420-486): the model-loaded check of
lines 424-426 raises `ValueError("Model not loaded")`; a decode failure
re-raises (lines 479-482); otherwise the classification tail runs. -/
def predict_image (env : PredictEnv) (st : ServerState) :
    Except String PredictionOut :=
  if st.default_model_loaded = false ∨ st.default_model = none then
    .error "Model not loaded"
  else
    match env.decode_error with
    | some msg => .error msg
    | none => classify_output env.model_output

/-- A `/predict` route response: either a JSON payload with HTTP status 200 or
an error body with its status code. -/
inductive RouteResult where
  | ok (r : PredictionOut) (status : Nat)
  | err (error : String) (status : Nat)
deriving DecidableEq

/-- Embedding of `predict_route` (lines 577-601): the not-loaded guard of
lines 581-583 answers `{"error": "Model not loaded"}` with status 503 before
anything else; a missing image field answers status 400 (lines 587-588); an
exception escaping `predict_image` answers `{"error": str(e)}` with status 500
(lines 598-601); otherwise the prediction payload is returned with status 200. -/
def predict_route (env : PredictEnv) (st : ServerState) (has_image : Bool) :
    RouteResult :=
  if st.default_model_loaded = false ∨ st.default_model = none then
    .err "Model not loaded" 503
  else if has_image = false then
    .err "No image provided" 400
  else
    match predict_image env st with
    | .ok r => .ok r 200
    | .error e => .err e 500

/-- A decoded raster image: width, height, and rows of pixel values (row-major;
out-of-range coordinates read as 0 via `getPx`).  Pixel values are kept as
naturals since the claims about preprocessing concern geometry only. -/
structure Img where
  width : Nat
  height : Nat
  px : List (List Nat)
deriving DecidableEq

/-- Pixel read at column `x`, row `y`. -/
def Img.getPx (img : Img) (x y : Nat) : Nat :=
  (img.px.getD y []).getD x 0

/-- Center-aligned source index used when resampling axis position `i` of
`target` output cells from `src` source cells: `floor((i + 1/2) * src / target)`. -/
def sampleIdx (i target src : Nat) : Nat :=
  (2 * i + 1) * src / (2 * target)

/-- Model of `PIL.Image.resize((tw, th))`: resamples the FULL source extent of
the image onto a `tw` by `th` grid.  The resample filter is modelled as
nearest-neighbour sampling of the source; the claims at issue concern which
source region feeds the output (the full image versus a central crop), which is
independent of the interpolation filter. -/
def pil_resize (img : Img) (tw th : Nat) : Img :=
  ⟨tw, th,
   (List.range th).map fun j =>
     (List.range tw).map fun i =>
       img.getPx (sampleIdx i tw img.width) (sampleIdx j th img.height)⟩

/-- The image-resize step of `predict_image` (line 442):
`image = image.resize(expected_shape)` resizes the decoded image directly to
the model's expected input resolution, with no preceding crop. -/
def predict_resize_step (img : Img) (tw th : Nat) : Img :=
  pil_resize img tw th

/-- Modelled from the spec: the center-crop-to-square step the specification
mandates for the Image Preprocessor ("center-crop to a square using the shorter
side").  No such operation exists in `predict_image`; this definition follows
the spec's words for comparison with `predict_resize_step`. -/
def spec_center_crop (img : Img) : Img :=
  let side := min img.width img.height
  let left := (img.width - side) / 2
  let top := (img.height - side) / 2
  ⟨side, side,
   (List.range side).map fun j =>
     (List.range side).map fun i =>
       img.getPx (left + i) (top + j)⟩

/-- Modelled from the spec: the full resize policy the specification mandates,
center-crop to the shorter side and then resample to the target resolution. -/
def spec_crop_then_resize (img : Img) (tw th : Nat) : Img :=
  pil_resize (spec_center_crop img) tw th

/-- A concrete non-square 4x2 image used to compare the two resize policies. -/
def imgA : Img := ⟨4, 2, [[1, 2, 3, 4], [5, 6, 7, 8]]⟩

/-- A second 4x2 image, equal to `imgA` except at the rightmost column, which
lies outside the central 2x2 square. -/
def imgB : Img := ⟨4, 2, [[1, 2, 3, 9], [5, 6, 7, 8]]⟩

/-- A load environment in which the file exists and every strategy raises. -/
def env_all_exn : LoadEnv := ⟨true, fun _ => .exn⟩

/-- A load environment in which the file exists and every strategy returns False. -/
def env_all_fail : LoadEnv := ⟨true, fun _ => .fail⟩

/-- A load environment in which `os.path.exists(model_path)` is false. -/
def env_missing : LoadEnv := ⟨false, fun _ => .fail⟩

/-- The module state at startup: no model, no path, not loaded. -/
def st_empty : ServerState := ⟨none, none, false⟩

/-- A module state in which a model was previously loaded for "model.h5". -/
def st_loaded : ServerState := ⟨some 5, some "model.h5", true⟩

/-- A predict environment with a decodable image and an empty output row. -/
def penv_empty : PredictEnv := ⟨none, []⟩

/-- A model output row of length 9 whose argmax is its last index, 8, while
`class_labels` has only 8 entries. -/
def nine_output : List Rat := [0, 0, 0, 0, 0, 0, 0, 0, 1]

/-- A predict environment whose model emits the 9-entry output row. -/
def penv_nine : PredictEnv := ⟨none, nine_output⟩

/-- A strategy environment where the first strategy raises, the second returns
False and the third succeeds. -/
def out_mixed : Strategy → StratOutcome := fun s =>
  match s with
  | .standalone_keras => .exn
  | .tf_keras => .fail
  | .legacy_keras => .ok 7
  | .direct_keras_import => .ok 9

/-- A JSON-like architecture-description tree, as parsed by `json.loads` at
line 201: null, booleans, numbers (the relevant configs carry integer shapes,
so numbers are modelled as integers), strings, arrays and objects.  Objects are
insertion-ordered key/value lists, as Python dicts are. -/
inductive Json where
  | null
  | bool (b : Bool)
  | num (n : Int)
  | str (s : String)
  | arr (elems : List Json)
  | obj (fields : List (String × Json))

/-- The `problematic_keys` denylist of `clean_config_advanced` (lines 207-210). -/
def problematic_keys : List String :=
  ["batch_shape", "dtype_policy", "mixed_precision_policy",
   "policy", "_dtype_policy", "dtype"]

/-- Every key `clean_config_advanced` removes: the denylist plus
`batch_input_shape`, which is always deleted by the rewrite block
(lines 217-221). -/
def bad_keys_all : List String :=
  problematic_keys ++ ["batch_input_shape"]

/-- Ordered-dict lookup: the value at the first occurrence of a key. -/
def lookupKey : List (String × Json) → String → Option Json
  | [], _ => none
  | (k', v) :: rest, k => if k' = k then some v else lookupKey rest k

/-- Ordered-dict deletion, `del obj[key]`: drop the entry with the given key,
keeping the order of the rest. -/
def delKey (k : String) : List (String × Json) → List (String × Json)
  | [] => []
  | (k', v) :: rest =>
    if k' = k then delKey k rest else (k', v) :: delKey k rest

/-- Ordered-dict assignment, `obj[key] = value`: replace the value in place if
the key exists, otherwise append the new entry at the end. -/
def setKey (k : String) (v : Json) : List (String × Json) → List (String × Json)
  | [] => [(k, v)]
  | (k', w) :: rest =>
    if k' = k then (k', v) :: rest else (k', w) :: setKey k v rest

/-- The deletion loop of lines 211-214: remove every entry whose key is in
`problematic_keys`. -/
def del_problematic : List (String × Json) → List (String × Json)
  | [] => []
  | (k, v) :: rest =>
    if k ∈ problematic_keys then del_problematic rest
    else (k, v) :: del_problematic rest

/-- Python truthiness of a JSON value, used by `if batch_shape` (line 219). -/
def truthy : Json → Bool
  | .null => false
  | .bool b => b
  | .num n => n != 0
  | .str s => s != ""
  | .arr xs => !xs.isEmpty
  | .obj fs => !fs.isEmpty

/-- What the `batch_input_shape` block (lines 217-221) does with the field's
value: raise a TypeError (`len()` of a number or boolean, or slicing a dict),
rewrite (`obj['input_shape'] = batch_shape[1:]` when the value is truthy with
length above one) followed by the deletion, or just delete the field. -/
inductive BatchAction where
  | raise
  | deleteOnly
  | rewrite (tail : Json)

/-- Case analysis of `if batch_shape and len(batch_shape) > 1` (line 219) on
the value of `batch_input_shape`. -/
def batch_action (v : Json) : BatchAction :=
  if truthy v then
    match v with
    | .str s => if 1 < s.length then .rewrite (.str (s.drop 1)) else .deleteOnly
    | .arr xs => if 1 < xs.length then .rewrite (.arr (xs.drop 1)) else .deleteOnly
    | .obj fs => if 1 < fs.length then .raise else .deleteOnly
    | _ => .raise
  else .deleteOnly

/-- The non-recursive part of `clean_config_advanced` on one mapping
(lines 206-221): delete the denylisted keys, then process
`batch_input_shape`; `none` models a raised TypeError. -/
def sanitize_shallow (fs : List (String × Json)) :
    Option (List (String × Json)) :=
  let fs1 := del_problematic fs
  match lookupKey fs1 "batch_input_shape" with
  | none => some fs1
  | some v =>
    match batch_action v with
    | .raise => none
    | .deleteOnly => some (delKey "batch_input_shape" fs1)
    | .rewrite t => some (delKey "batch_input_shape" (setKey "input_shape" t fs1))

/-- Size measure on `Json` used for the termination of
`clean_config_advanced`; leaves count 1 so that rewriting a shape field to its
tail never increases the measure. -/
def jsize : Json → Nat
  | .null => 1
  | .bool _ => 1
  | .num _ => 1
  | .str _ => 1
  | .arr [] => 1
  | .arr (x :: xs) => 1 + jsize x + jsize (.arr xs)
  | .obj [] => 1
  | .obj ((_, v) :: rest) => 1 + jsize v + jsize (.obj rest)
termination_by j => sizeOf j
decreasing_by all_goals (simp_wf <;> omega)

mutual

/-- Embedding of `clean_config_advanced` (lines 204-233): on a mapping, delete
the denylisted keys (lines 211-214), process `batch_input_shape`
(lines 217-221), then recurse into every remaining value (lines 224-226); on a
list, recurse into the items (lines 228-231); scalars are returned unchanged
(recursing only into dict/list values, as the `isinstance` guards do, returns
scalars unchanged either way).  The function returns the final mutated tree;
`none` models a TypeError raised by the rewrite block escaping the walk. -/
def clean_config_advanced : Json → Option Json
  | .obj fs =>
    match h : sanitize_shallow fs with
    | none => none
    | some fs2 =>
      match clean_config_fields fs2 with
      | none => none
      | some fs3 => some (.obj fs3)
  | .arr xs =>
    match clean_config_elems xs with
    | none => none
    | some ys => some (.arr ys)
  | .null => some .null
  | .bool b => some (.bool b)
  | .num n => some (.num n)
  | .str s => some (.str s)
termination_by j => (jsize j, 1)
decreasing_by
  · have hjobj : ∀ (k : String) (v : Json) (rest : List (String × Json)),
        jsize (Json.obj ((k, v) :: rest)) = 1 + jsize v + jsize (Json.obj rest) := by
      intro k v rest; simp [jsize]
    have hdelp : ∀ l : List (String × Json),
        jsize (Json.obj (del_problematic l)) ≤ jsize (Json.obj l) := by
      intro l
      induction l with
      | nil => simp [del_problematic]
      | cons kv rest ih =>
        obtain ⟨k, v⟩ := kv
        by_cases hk : k ∈ problematic_keys
        · simp only [del_problematic, if_pos hk]
          rw [hjobj]; omega
        · simp only [del_problematic, if_neg hk]
          rw [hjobj, hjobj]; omega
    have hdelk : ∀ (k : String) (l : List (String × Json)),
        jsize (Json.obj (delKey k l)) ≤ jsize (Json.obj l) := by
      intro k l
      induction l with
      | nil => simp [delKey]
      | cons kv rest ih =>
        obtain ⟨k', v⟩ := kv
        by_cases hk : k' = k
        · simp only [delKey, if_pos hk]
          rw [hjobj]; omega
        · simp only [delKey, if_neg hk]
          rw [hjobj, hjobj]; omega
    have hsetk : ∀ (k : String) (t : Json) (l : List (String × Json)),
        jsize (Json.obj (setKey k t l)) ≤ jsize (Json.obj l) + 1 + jsize t := by
      intro k t l
      induction l with
      | nil => simp [setKey, hjobj, jsize]; omega
      | cons kv rest ih =>
        obtain ⟨k', v⟩ := kv
        by_cases hk : k' = k
        · simp only [setKey, if_pos hk]
          rw [hjobj, hjobj]; omega
        · simp only [setKey, if_neg hk]
          rw [hjobj, hjobj]; omega
    have hdelLook : ∀ (k : String) (l : List (String × Json)) (v : Json),
        lookupKey l k = some v →
          jsize (Json.obj (delKey k l)) + 1 + jsize v ≤ jsize (Json.obj l) := by
      intro k l
      induction l with
      | nil => intro v hv; simp [lookupKey] at hv
      | cons kv rest ih =>
        obtain ⟨k', w⟩ := kv
        intro v hv
        by_cases hk : k' = k
        · rw [lookupKey, if_pos hk] at hv
          cases hv
          simp only [delKey, if_pos hk]
          have := hdelk k rest
          rw [hjobj]; omega
        · rw [lookupKey, if_neg hk] at hv
          simp only [delKey, if_neg hk]
          have := ih v hv
          rw [hjobj, hjobj]; omega
    have hlookSet : ∀ (kq ks : String) (t : Json) (l : List (String × Json)),
        ks ≠ kq → lookupKey (setKey ks t l) kq = lookupKey l kq := by
      intro kq ks t l hne
      induction l with
      | nil => simp [setKey, lookupKey, hne]
      | cons kv rest ih =>
        obtain ⟨k', w⟩ := kv
        by_cases hk : k' = ks
        · subst hk
          simp [setKey, lookupKey, hne]
        · by_cases hq : k' = kq
          · subst hq
            simp [setKey, lookupKey, hk]
          · simp [setKey, lookupKey, hk, hq, ih]
    have hbatch : ∀ (v t : Json), batch_action v = .rewrite t → jsize t ≤ jsize v := by
      intro v t hv
      unfold batch_action at hv
      split at hv
      · split at hv
        · rename_i s hveq
          split at hv
          · cases hv
            simp [jsize]
          · simp at hv
        · rename_i xs hveq
          split at hv
          · cases hv
            cases xs with
            | nil => simp
            | cons x rest =>
              have h1 : (x :: rest).drop 1 = rest := rfl
              rw [h1]
              have h2 : jsize (Json.arr (x :: rest)) = 1 + jsize x + jsize (Json.arr rest) := by
                simp [jsize]
              omega
          · simp at hv
        all_goals first
          | (split at hv <;> simp at hv)
          | simp at hv
          | (exact absurd hv (by simp))
      · simp at hv
    have hs2 : jsize (Json.obj fs2) ≤ jsize (Json.obj fs) := by
      rw [sanitize_shallow] at h
      split at h
      · cases h
        exact hdelp fs
      · rename_i v hl
        split at h
        · exact absurd h (by simp)
        · cases h
          exact le_trans (hdelk _ _) (hdelp fs)
        · rename_i t hb
          cases h
          have e1 : lookupKey (setKey "input_shape" t (del_problematic fs))
              "batch_input_shape" = some v := by
            rw [hlookSet _ _ _ _ (by decide)]
            exact hl
          have e2 := hdelLook "batch_input_shape"
            (setKey "input_shape" t (del_problematic fs)) v e1
          have e3 := hsetk "input_shape" t (del_problematic fs)
          have e4 := hbatch v t hb
          have e5 := hdelp fs
          omega
    rcases Nat.lt_or_ge (jsize (Json.obj fs2)) (jsize (Json.obj fs)) with hlt | hge
    · exact Prod.Lex.left _ _ hlt
    · have heq : jsize (Json.obj fs2) = jsize (Json.obj fs) :=
        Nat.le_antisymm hs2 hge
      rw [heq]
      exact Prod.Lex.right _ (by omega)
  · exact Prod.Lex.right _ (by omega)

/-- The value-recursion loop of `clean_config_advanced` over the entries of a
mapping (lines 224-226): clean each value in order, keeping the keys. -/
def clean_config_fields : List (String × Json) → Option (List (String × Json))
  | [] => some []
  | (k, v) :: rest =>
    match clean_config_advanced v, clean_config_fields rest with
    | some v', some rest' => some ((k, v') :: rest')
    | _, _ => none
termination_by fs => (jsize (Json.obj fs), 0)
decreasing_by
  · have h1 : ∀ (kk : String) (vv : Json) (rr : List (String × Json)),
        jsize (Json.obj ((kk, vv) :: rr)) = 1 + jsize vv + jsize (Json.obj rr) := by
      intro kk vv rr; simp [jsize]
    refine Prod.Lex.left _ _ ?_
    rw [h1]
    omega
  · have h1 : ∀ (kk : String) (vv : Json) (rr : List (String × Json)),
        jsize (Json.obj ((kk, vv) :: rr)) = 1 + jsize vv + jsize (Json.obj rr) := by
      intro kk vv rr; simp [jsize]
    refine Prod.Lex.left _ _ ?_
    rw [h1]
    omega

/-- The item-recursion loop of `clean_config_advanced` over a list
(lines 228-231): clean each item in order. -/
def clean_config_elems : List Json → Option (List Json)
  | [] => some []
  | x :: rest =>
    match clean_config_advanced x, clean_config_elems rest with
    | some x', some rest' => some (x' :: rest')
    | _, _ => none
termination_by xs => (jsize (Json.arr xs), 0)
decreasing_by
  · have h1 : ∀ (xx : Json) (rr : List Json),
        jsize (Json.arr (xx :: rr)) = 1 + jsize xx + jsize (Json.arr rr) := by
      intro xx rr; simp [jsize]
    refine Prod.Lex.left _ _ ?_
    rw [h1]
    omega
  · have h1 : ∀ (xx : Json) (rr : List Json),
        jsize (Json.arr (xx :: rr)) = 1 + jsize xx + jsize (Json.arr rr) := by
      intro xx rr; simp [jsize]
    refine Prod.Lex.left _ _ ?_
    rw [h1]
    omega

end

mutual

/-- Whether a tree is free, at every nesting depth, of every key that
`clean_config_advanced` removes (the denylist and `batch_input_shape`). -/
def badKeyFree : Json → Bool
  | .obj fs => badKeyFreeFields fs
  | .arr xs => badKeyFreeElems xs
  | .null => true
  | .bool _ => true
  | .num _ => true
  | .str _ => true

/-- Key freedom over the entries of a mapping. -/
def badKeyFreeFields : List (String × Json) → Bool
  | [] => true
  | (k, v) :: rest =>
    !(decide (k ∈ bad_keys_all)) && badKeyFree v && badKeyFreeFields rest

/-- Key freedom over the items of a list. -/
def badKeyFreeElems : List Json → Bool
  | [] => true
  | x :: rest => badKeyFree x && badKeyFreeElems rest

end

/-- A concrete architecture-description mapping carrying a denylisted `dtype`
field and a batch-inclusive `batch_input_shape` field. -/
def ex_config : Json :=
  .obj [("batch_input_shape", .arr [.null, .num 128, .num 3]),
        ("dtype", .str "float32"),
        ("units", .num 5)]

/-- The sanitized form of `ex_config`: the denylisted keys are gone and the
shape was rewritten to its batch-exclusive tail under `input_shape`. -/
def ex_config_clean : Json :=
  .obj [("units", .num 5),
        ("input_shape", .arr [.num 128, .num 3])]

lemma run_loading_methods_all_fail (out : Strategy → StratOutcome) :
    ∀ ss : List Strategy, (∀ s ∈ ss, (out s).isOk = false) →
      run_loading_methods out ss = (ss, none) := by
  intro ss
  induction ss with
  | nil => intro _; rfl
  | cons s rest ih =>
    intro h
    have hs := h s (List.mem_cons_self s rest)
    have hrest := ih fun x hx => h x (List.mem_cons_of_mem s hx)
    cases hout : out s with
    | ok m => rw [hout] at hs; simp [StratOutcome.isOk] at hs
    | fail => simp [run_loading_methods, hout, hrest]
    | exn => simp [run_loading_methods, hout, hrest]

lemma load_model_false_state (env : LoadEnv) (st : ServerState) (p : String)
    (h : (load_model env st p).1 = false) :
    (load_model env st p).2.1 = { st with default_model_loaded := false } := by
  unfold load_model at h ⊢
  by_cases hex : env.path_exists = false
  · simp [hex]
  · simp only [hex, if_false, ite_false] at h ⊢
    cases hrun : (run_loading_methods env.outcome loading_methods).2 with
    | none => simp [hrun]
    | some m => simp [hrun] at h

lemma predict_route_not_loaded (env : PredictEnv) (st : ServerState) (hi : Bool)
    (h : st.default_model_loaded = false) :
    predict_route env st hi = .err "Model not loaded" 503 := by
  unfold predict_route
  rw [if_pos (Or.inl h)]

lemma run_loading_methods_chain_take (out : Strategy → StratOutcome) :
    ∀ ss : List Strategy, ∃ n, (run_loading_methods out ss).1 = ss.take n := by
  intro ss
  induction ss with
  | nil => exact ⟨0, rfl⟩
  | cons s rest ih =>
    cases hout : out s with
    | ok m => exact ⟨1, by simp [run_loading_methods, hout]⟩
    | fail =>
      obtain ⟨n, hn⟩ := ih
      exact ⟨n + 1, by simp [run_loading_methods, hout, hn]⟩
    | exn =>
      obtain ⟨n, hn⟩ := ih
      exact ⟨n + 1, by simp [run_loading_methods, hout, hn]⟩

lemma run_loading_methods_chain_some (out : Strategy → StratOutcome) :
    ∀ (ss : List Strategy) (m : Nat), (run_loading_methods out ss).2 = some m →
      ∃ i, ∃ h : i < ss.length,
        out (ss.get ⟨i, h⟩) = .ok m ∧
        (∀ j (hj : j < ss.length), j < i → (out (ss.get ⟨j, hj⟩)).isOk = false) ∧
        (run_loading_methods out ss).1.length = i + 1 := by
  intro ss
  induction ss with
  | nil => intro m h; simp [run_loading_methods] at h
  | cons s rest ih =>
    intro m h
    cases hout : out s with
    | ok m' =>
      have hm : m' = m := by
        simp [run_loading_methods, hout] at h; exact h
      refine ⟨0, by simp, ?_, ?_, ?_⟩
      · simpa [hm] using hout
      · intro j hj hj0; omega
      · simp [run_loading_methods, hout]
    | fail =>
      have h' : (run_loading_methods out rest).2 = some m := by
        simpa [run_loading_methods, hout] using h
      obtain ⟨i, hi, h1, h2, h3⟩ := ih m h'
      refine ⟨i + 1, by simpa using Nat.succ_lt_succ hi, ?_, ?_, ?_⟩
      · simpa using h1
      · intro j hj hji
        cases j with
        | zero => simp [hout, StratOutcome.isOk]
        | succ j' =>
          have hj' : j' < rest.length := by simpa using Nat.lt_of_succ_lt_succ hj
          simpa using h2 j' hj' (Nat.lt_of_succ_lt_succ hji)
      · simp [run_loading_methods, hout, h3]
    | exn =>
      have h' : (run_loading_methods out rest).2 = some m := by
        simpa [run_loading_methods, hout] using h
      obtain ⟨i, hi, h1, h2, h3⟩ := ih m h'
      refine ⟨i + 1, by simpa using Nat.succ_lt_succ hi, ?_, ?_, ?_⟩
      · simpa using h1
      · intro j hj hji
        cases j with
        | zero => simp [hout, StratOutcome.isOk]
        | succ j' =>
          have hj' : j' < rest.length := by simpa using Nat.lt_of_succ_lt_succ hj
          simpa using h2 j' hj' (Nat.lt_of_succ_lt_succ hji)
      · simp [run_loading_methods, hout, h3]

lemma run_loading_methods_chain_none (out : Strategy → StratOutcome) :
    ∀ ss : List Strategy, (run_loading_methods out ss).2 = none →
      (run_loading_methods out ss).1 = ss ∧ ∀ s ∈ ss, (out s).isOk = false := by
  intro ss
  induction ss with
  | nil => intro _; exact ⟨rfl, by simp⟩
  | cons s rest ih =>
    intro h
    cases hout : out s with
    | ok m => simp [run_loading_methods, hout] at h
    | fail =>
      have h' : (run_loading_methods out rest).2 = none := by
        simpa [run_loading_methods, hout] using h
      obtain ⟨h1, h2⟩ := ih h'
      refine ⟨by simp [run_loading_methods, hout, h1], ?_⟩
      intro x hx
      rcases List.mem_cons.1 hx with hx | hx
      · subst hx; simp [hout, StratOutcome.isOk]
      · exact h2 x hx
    | exn =>
      have h' : (run_loading_methods out rest).2 = none := by
        simpa [run_loading_methods, hout] using h
      obtain ⟨h1, h2⟩ := ih h'
      refine ⟨by simp [run_loading_methods, hout, h1], ?_⟩
      intro x hx
      rcases List.mem_cons.1 hx with hx | hx
      · subst hx; simp [hout, StratOutcome.isOk]
      · exact h2 x hx

lemma run_loading_methods_chain_advance (out : Strategy → StratOutcome)
    (s : Strategy) (h : (out s).isOk = false) (rest : List Strategy) :
    run_loading_methods out (s :: rest) =
      (s :: (run_loading_methods out rest).1, (run_loading_methods out rest).2) := by
  cases hout : out s with
  | ok m => rw [hout] at h; simp [StratOutcome.isOk] at h
  | fail => simp [run_loading_methods, hout]
  | exn => simp [run_loading_methods, hout]

/-
Theorems settling the claims.
-/

/-- Claim C5: the Strategy Chain Executor attempts strategies in their fixed
priority order; for every run, strategy i is attempted only if strategies
0..i-1 all failed, the chain halts at the first strategy that succeeds (the
attempted list is exactly the strategies up to and including the winner), on
exhaustion every strategy was attempted and failed, and an exception inside one
strategy does not abort the chain but only advances it to the next strategy. -/
theorem c5_strategy_chain_order (out : Strategy → StratOutcome) (ss : List Strategy) :
    (∃ n, (run_loading_methods out ss).1 = ss.take n) ∧
    (∀ m, (run_loading_methods out ss).2 = some m →
      ∃ i, ∃ h : i < ss.length,
        out (ss.get ⟨i, h⟩) = .ok m ∧
        (∀ j (hj : j < ss.length), j < i → (out (ss.get ⟨j, hj⟩)).isOk = false) ∧
        (run_loading_methods out ss).1.length = i + 1) ∧
    ((run_loading_methods out ss).2 = none →
      (run_loading_methods out ss).1 = ss ∧ ∀ s ∈ ss, (out s).isOk = false) ∧
    (∀ s, (out s).isOk = false → ∀ rest,
      run_loading_methods out (s :: rest) =
        (s :: (run_loading_methods out rest).1, (run_loading_methods out rest).2)) :=
  ⟨run_loading_methods_chain_take out ss,
   fun m h => run_loading_methods_chain_some out ss m h,
   fun h => run_loading_methods_chain_none out ss h,
   fun s h rest => run_loading_methods_chain_advance out s h rest⟩

/-- Witness for C5: in the concrete environment `out_mixed` (first strategy
raises, second fails, third succeeds with model 7), the chain over the source's
four `loading_methods` stops at index 2, and an exception at the head of a
chain only shifts the remaining chain's result. -/
theorem c5_witness :
    (∃ i, ∃ h : i < loading_methods.length,
      out_mixed (loading_methods.get ⟨i, h⟩) = .ok 7 ∧
      (∀ j (hj : j < loading_methods.length), j < i →
        (out_mixed (loading_methods.get ⟨j, hj⟩)).isOk = false) ∧
      (run_loading_methods out_mixed loading_methods).1.length = i + 1) ∧
    run_loading_methods out_mixed (Strategy.standalone_keras :: [Strategy.tf_keras]) =
      (Strategy.standalone_keras ::
        (run_loading_methods out_mixed [Strategy.tf_keras]).1,
       (run_loading_methods out_mixed [Strategy.tf_keras]).2) :=
  ⟨(c5_strategy_chain_order out_mixed loading_methods).2.1 7 (by decide),
   (c5_strategy_chain_order out_mixed loading_methods).2.2.2 Strategy.standalone_keras
     (by decide) [Strategy.tf_keras]⟩

/-- Claim C1 (counterexample): contrary to the claim, when every loading
strategy fails the load response is `{success: false, loaded: false}` with the
generic error message, not `{success: true, loaded: true}` with a fallback
model: evaluated in the concrete environment where the file exists and all four
strategies raise. -/
theorem c1_counterexample :
    (load_model_route env_all_exn st_empty (some "model.h5")).1.success = false ∧
    (load_model_route env_all_exn st_empty (some "model.h5")).1.loaded = some false ∧
    (load_model_route env_all_exn st_empty (some "model.h5")).1.error =
      some "Failed to load model with any available method" := by
  refine ⟨by decide, by decide, by decide⟩

/-- Claim C1 (amended): when the artifact exists but every strategy in the
chain fails, `load_model` does not raise — it returns `False` — and the route
answers `{success: false, loaded: false, error: "Failed to load model with any
available method"}`; no fallback model is installed, the loaded flag is left
false, and every subsequent predict request is rejected with
`{"error": "Model not loaded"}` and status 503 rather than served degraded. -/
theorem c1_exhausted_amended (env : LoadEnv) (st : ServerState) (p : String)
    (hex : env.path_exists = true)
    (hfail : ∀ s, (env.outcome s).isOk = false)
    (hp : p ≠ "") :
    (load_model_route env st (some p)).1 =
      ⟨false, some "Failed to load model with any available method",
       some false, some p⟩ ∧
    (load_model_route env st (some p)).2.1.default_model_loaded = false ∧
    (∀ penv hi, predict_route penv (load_model_route env st (some p)).2.1 hi =
      .err "Model not loaded" 503) := by
  have hrun := run_loading_methods_all_fail env.outcome loading_methods
    (fun s _ => hfail s)
  have hload : load_model env st p =
      (false, { st with default_model_loaded := false }, loading_methods) := by
    unfold load_model
    simp [hex, hrun]
  refine ⟨?_, ?_, ?_⟩
  · simp [load_model_route, if_neg hp, hload]
  · simp [load_model_route, if_neg hp, hload]
  · intro penv hi
    apply predict_route_not_loaded
    simp [load_model_route, if_neg hp, hload]

/-- Witness for C1 (amended), at the concrete all-raise environment. -/
theorem c1_witness :
    (load_model_route env_all_exn st_empty (some "m.h5")).1 =
      ⟨false, some "Failed to load model with any available method",
       some false, some "m.h5"⟩ ∧
    predict_route penv_empty
      (load_model_route env_all_exn st_empty (some "m.h5")).2.1 true =
      .err "Model not loaded" 503 := by
  have h := c1_exhausted_amended env_all_exn st_empty "m.h5" rfl
    (fun s => by cases s <;> rfl) (by decide)
  exact ⟨h.1, h.2.2 penv_empty true⟩

/-- Claim C2 (code evaluated at the failing input): `class_labels` has 8
entries, but a model output row of length 9 with argmax 8 makes line 467 index
out of bounds; `predict_image` raises `IndexError` instead of substituting a
placeholder label, and the route surfaces it as an HTTP 500 error. -/
theorem c2_argmax_out_of_bounds :
    class_labels.length = 8 ∧
    nine_output.length = 9 ∧
    np_argmax nine_output = 8 ∧
    classify_output nine_output = .error "list index out of range" ∧
    predict_route penv_nine st_loaded true = .err "list index out of range" 500 := by
  refine ⟨by decide, by decide, by decide, by rfl, by decide⟩

/-- Claim C6 (counterexample): on the concrete non-square image `imgA`, the
resize step of `predict_image` (a direct resize of the full image) differs from
the spec's center-crop-then-resize policy, so the preprocessor does not
center-crop non-square images. -/
theorem c6_counterexample :
    imgA.width ≠ imgA.height ∧
    predict_resize_step imgA 2 2 ≠ spec_crop_then_resize imgA 2 2 := by
  refine ⟨by decide, by decide⟩

/-- Claim C6 (amended): the preprocessor resamples the full decoded image
directly to the model's declared input resolution, stretching non-square
images; it performs no center crop, and its output depends on pixels outside
the central square that the spec's crop would discard: `imgA` and `imgB` have
identical central crops (they differ only in the rightmost column), so the
crop-then-resize policy maps them to the same output, yet the code's resize
step distinguishes them. -/
theorem c6_stretch_amended :
    predict_resize_step imgA 2 2 = pil_resize imgA 2 2 ∧
    spec_center_crop imgA = spec_center_crop imgB ∧
    spec_crop_then_resize imgA 2 2 = spec_crop_then_resize imgB 2 2 ∧
    predict_resize_step imgA 2 2 ≠ predict_resize_step imgB 2 2 := by
  refine ⟨rfl, by decide, by decide, by decide⟩

/-- Claim C7 (counterexample): when the model path names no existing file the
route does answer `{success: false, loaded: false}`, but the error message is
the generic "Failed to load model with any available method", not a
"Model file not found..." message identifying the missing-file cause (that text
only goes to the log, line 66). -/
theorem c7_counterexample :
    (load_model_route env_missing st_empty (some "missing.h5")).1.success = false ∧
    (load_model_route env_missing st_empty (some "missing.h5")).1.loaded = some false ∧
    (load_model_route env_missing st_empty (some "missing.h5")).1.error =
      some "Failed to load model with any available method" ∧
    List.isPrefixOf "Model file not found".data
      "Failed to load model with any available method".data = false := by
  refine ⟨by decide, by decide, by decide, by decide⟩

/-- Claim C7 (amended): for every load request whose model path does not name
an existing file, the load fails with `{success: false, loaded: false}` and the
error message "Failed to load model with any available method"; no strategy is
attempted and the loaded flag is left false. -/
theorem c7_missing_file_amended (env : LoadEnv) (st : ServerState) (p : String)
    (hmiss : env.path_exists = false) (hp : p ≠ "") :
    load_model_route env st (some p) =
      (⟨false, some "Failed to load model with any available method",
        some false, some p⟩,
       { st with default_model_loaded := false }, []) := by
  have hload : load_model env st p =
      (false, { st with default_model_loaded := false }, []) := by
    unfold load_model
    simp [hmiss]
  simp [load_model_route, if_neg hp, hload]

/-- Witness for C7 (amended), at the concrete missing-file environment. -/
theorem c7_witness :
    load_model_route env_missing st_empty (some "missing.h5") =
      (⟨false, some "Failed to load model with any available method",
        some false, some "missing.h5"⟩, st_empty, []) :=
  c7_missing_file_amended env_missing st_empty "missing.h5" rfl (by decide)

/-- Claim C8 (counterexample): with a model already loaded for "model.h5",
re-issuing a load for that same path is not a no-op: all four strategies are
re-executed, the call returns `False` (the fresh outcome, not the cached
success), and the loaded flag is flipped to false. -/
theorem c8_counterexample :
    st_loaded.default_model_path = some "model.h5" ∧
    st_loaded.default_model_loaded = true ∧
    (load_model env_all_fail st_loaded "model.h5").2.2 = loading_methods ∧
    (load_model env_all_fail st_loaded "model.h5").1 = false ∧
    (load_model env_all_fail st_loaded "model.h5").2.1.default_model_loaded
      = false := by
  refine ⟨by decide, by decide, by decide, by decide, by decide⟩

/-- Claim C8 (amended): re-issuing a load for an already-loaded path
re-executes the strategy chain unconditionally: there is no cache check, the
loaded flag is reset at entry, at least one strategy is attempted again, and
the returned result is the fresh chain outcome — in particular `False`, with
the loaded flag left false, whenever every strategy now fails. -/
theorem c8_reload_reexecutes_amended (env : LoadEnv) (st : ServerState) (p : String)
    (hloaded : st.default_model_loaded = true)
    (hpath : st.default_model_path = some p)
    (hex : env.path_exists = true) :
    (load_model env st p).2.2 ≠ [] ∧
    ((load_model env st p).1 = false →
      (load_model env st p).2.1.default_model_loaded = false) ∧
    ((∀ s, (env.outcome s).isOk = false) → (load_model env st p).1 = false) := by
  refine ⟨?_, ?_, ?_⟩
  · have hne : (run_loading_methods env.outcome loading_methods).1 ≠ [] := by
      cases h : env.outcome .standalone_keras <;>
        simp [loading_methods, run_loading_methods, h]
    unfold load_model
    simp only [hex]
    cases hrun : (run_loading_methods env.outcome loading_methods).2 <;>
      simpa [hrun] using hne
  · intro h
    rw [load_model_false_state env st p h]
  · intro hfail
    have hrun := run_loading_methods_all_fail env.outcome loading_methods
      (fun s _ => hfail s)
    unfold load_model
    simp [hex, hrun]

/-- Witness for C8 (amended), at the concrete all-fail environment and the
already-loaded state. -/
theorem c8_witness :
    (load_model env_all_fail st_loaded "model.h5").2.2 ≠ [] ∧
    (load_model env_all_fail st_loaded "model.h5").2.1.default_model_loaded
      = false ∧
    (load_model env_all_fail st_loaded "model.h5").1 = false := by
  have h := c8_reload_reexecutes_amended env_all_fail st_loaded "model.h5"
    rfl rfl rfl
  exact ⟨h.1, h.2.1 (by decide), h.2.2 (fun s => by cases s <;> rfl)⟩

/-- Claim C9: every predict request issued while no model is loaded (flag false
or no model object) is answered by the structured error
`{"error": "Model not loaded"}` with status 503 — which is not 200 — and no
prediction payload is substituted. -/
theorem c9_predict_not_loaded (env : PredictEnv) (st : ServerState) (hi : Bool)
    (h : st.default_model_loaded = false ∨ st.default_model = none) :
    predict_route env st hi = .err "Model not loaded" 503 ∧
    (∀ r s, predict_route env st hi ≠ .ok r s) ∧ (503 : Nat) ≠ 200 := by
  have h1 : predict_route env st hi = .err "Model not loaded" 503 := by
    unfold predict_route
    rw [if_pos h]
  refine ⟨h1, ?_, by decide⟩
  intro r s hcontra
  rw [h1] at hcontra
  exact RouteResult.noConfusion hcontra

/-- Witness for C9, at the startup state. -/
theorem c9_witness :
    predict_route penv_empty st_empty true = .err "Model not loaded" 503 :=
  (c9_predict_not_loaded penv_empty st_empty true (Or.inl rfl)).1

/-- Claim C10: a failed load is not atomic with respect to prior state —
whenever `load_model` returns `False` (the flag having been reset at entry,
line 51), the resulting state is the prior state with the loaded flag cleared,
so even a previously loaded service is left reporting not-loaded and every
predict request is rejected with `{"error": "Model not loaded"}`, status 503. -/
theorem c10_failed_load_clears_loaded (env : LoadEnv) (st : ServerState)
    (p : String) (h : (load_model env st p).1 = false) :
    (load_model env st p).2.1 = { st with default_model_loaded := false } ∧
    (∀ penv hi, predict_route penv (load_model env st p).2.1 hi =
      .err "Model not loaded" 503) := by
  have hs := load_model_false_state env st p h
  refine ⟨hs, fun penv hi => ?_⟩
  rw [hs]
  exact predict_route_not_loaded penv _ hi rfl

/-- Witness for C10: a load for a missing file issued over an already-loaded
state returns `False`, clears the loaded flag, and predict is then rejected. -/
theorem c10_witness :
    (load_model env_missing st_loaded "missing.h5").2.1 =
      { st_loaded with default_model_loaded := false } ∧
    predict_route penv_empty
      (load_model env_missing st_loaded "missing.h5").2.1 true =
      .err "Model not loaded" 503 := by
  have h := c10_failed_load_clears_loaded env_missing st_loaded "missing.h5"
    (by decide)
  exact ⟨h.1, h.2 penv_empty true⟩

lemma jsize_obj_cons (k : String) (v : Json) (rest : List (String × Json)) :
    jsize (Json.obj ((k, v) :: rest)) = 1 + jsize v + jsize (Json.obj rest) := by
  simp [jsize]

lemma jsize_arr_cons (x : Json) (rest : List Json) :
    jsize (Json.arr (x :: rest)) = 1 + jsize x + jsize (Json.arr rest) := by
  simp [jsize]

lemma jsize_pos (j : Json) : 1 ≤ jsize j := by
  cases j with
  | null => simp [jsize]
  | bool b => simp [jsize]
  | num n => simp [jsize]
  | str s => simp [jsize]
  | arr xs =>
    cases xs with
    | nil => simp [jsize]
    | cons x r => rw [jsize_arr_cons]; omega
  | obj fs =>
    cases fs with
    | nil => simp [jsize]
    | cons kv r => obtain ⟨k, v⟩ := kv; rw [jsize_obj_cons]; omega

lemma jsize_del_problematic_le (l : List (String × Json)) :
    jsize (Json.obj (del_problematic l)) ≤ jsize (Json.obj l) := by
  induction l with
  | nil => simp [del_problematic]
  | cons kv rest ih =>
    obtain ⟨k, v⟩ := kv
    by_cases hk : k ∈ problematic_keys
    · simp only [del_problematic, if_pos hk]
      rw [jsize_obj_cons]; omega
    · simp only [del_problematic, if_neg hk]
      rw [jsize_obj_cons, jsize_obj_cons]; omega

lemma jsize_delKey_le (k : String) (l : List (String × Json)) :
    jsize (Json.obj (delKey k l)) ≤ jsize (Json.obj l) := by
  induction l with
  | nil => simp [delKey]
  | cons kv rest ih =>
    obtain ⟨k', v⟩ := kv
    by_cases hk : k' = k
    · simp only [delKey, if_pos hk]
      rw [jsize_obj_cons]; omega
    · simp only [delKey, if_neg hk]
      rw [jsize_obj_cons, jsize_obj_cons]; omega

lemma jsize_setKey_le (k : String) (t : Json) (l : List (String × Json)) :
    jsize (Json.obj (setKey k t l)) ≤ jsize (Json.obj l) + 1 + jsize t := by
  induction l with
  | nil => simp [setKey, jsize_obj_cons, jsize]; omega
  | cons kv rest ih =>
    obtain ⟨k', v⟩ := kv
    by_cases hk : k' = k
    · simp only [setKey, if_pos hk]
      rw [jsize_obj_cons, jsize_obj_cons]; omega
    · simp only [setKey, if_neg hk]
      rw [jsize_obj_cons, jsize_obj_cons]; omega

lemma jsize_delKey_lookup (k : String) (l : List (String × Json)) (v : Json)
    (h : lookupKey l k = some v) :
    jsize (Json.obj (delKey k l)) + 1 + jsize v ≤ jsize (Json.obj l) := by
  induction l with
  | nil => simp [lookupKey] at h
  | cons kv rest ih =>
    obtain ⟨k', w⟩ := kv
    by_cases hk : k' = k
    · simp only [lookupKey] at h
      rw [if_pos hk] at h
      cases h
      simp only [delKey, if_pos hk]
      have := jsize_delKey_le k rest
      rw [jsize_obj_cons]; omega
    · simp only [lookupKey] at h
      rw [if_neg hk] at h
      simp only [delKey, if_neg hk]
      have := ih h
      rw [jsize_obj_cons, jsize_obj_cons]; omega

lemma lookupKey_setKey_ne (kq ks : String) (t : Json) (l : List (String × Json))
    (hne : ks ≠ kq) : lookupKey (setKey ks t l) kq = lookupKey l kq := by
  induction l with
  | nil => simp [setKey, lookupKey, hne]
  | cons kv rest ih =>
    obtain ⟨k', w⟩ := kv
    by_cases hk : k' = ks
    · subst hk
      simp [setKey, lookupKey, hne]
    · by_cases hq : k' = kq
      · subst hq
        simp [setKey, lookupKey, hk]
      · simp [setKey, lookupKey, hk, hq, ih]

lemma lookupKey_setKey_self (k : String) (t : Json) (l : List (String × Json)) :
    lookupKey (setKey k t l) k = some t := by
  induction l with
  | nil => simp [setKey, lookupKey]
  | cons kv rest ih =>
    obtain ⟨k', w⟩ := kv
    by_cases hk : k' = k
    · subst hk
      simp [setKey, lookupKey]
    · simp [setKey, lookupKey, hk, ih]

lemma lookupKey_delKey_ne (kq kdel : String) (l : List (String × Json))
    (h : kq ≠ kdel) : lookupKey (delKey kdel l) kq = lookupKey l kq := by
  induction l with
  | nil => simp [delKey]
  | cons kv rest ih =>
    obtain ⟨k', w⟩ := kv
    by_cases hk : k' = kdel
    · subst hk
      simp [delKey, lookupKey, Ne.symm h, ih]
    · by_cases hq : k' = kq
      · subst hq
        simp [delKey, lookupKey, hk]
      · simp [delKey, lookupKey, hk, hq, ih]

lemma batch_action_rewrite_le (v t : Json) (hv : batch_action v = .rewrite t) :
    jsize t ≤ jsize v := by
  unfold batch_action at hv
  split at hv
  · split at hv
    · rename_i s hveq
      split at hv
      · cases hv
        simp [jsize]
      · simp at hv
    · rename_i xs hveq
      split at hv
      · cases hv
        cases xs with
        | nil => simp
        | cons x rest =>
          have h1 : (x :: rest).drop 1 = rest := rfl
          rw [h1, jsize_arr_cons]
          omega
      · simp at hv
    all_goals first
      | (split at hv <;> simp at hv)
      | simp at hv
  · simp at hv

lemma jsize_sanitize_le (fs fs2 : List (String × Json))
    (h : sanitize_shallow fs = some fs2) :
    jsize (Json.obj fs2) ≤ jsize (Json.obj fs) := by
  rw [sanitize_shallow] at h
  split at h
  · cases h
    exact jsize_del_problematic_le fs
  · rename_i v hl
    split at h
    · exact absurd h (by simp)
    · cases h
      exact le_trans (jsize_delKey_le _ _) (jsize_del_problematic_le fs)
    · rename_i t hb
      cases h
      have e1 : lookupKey (setKey "input_shape" t (del_problematic fs))
          "batch_input_shape" = some v := by
        rw [lookupKey_setKey_ne _ _ _ _ (by decide)]
        exact hl
      have e2 := jsize_delKey_lookup "batch_input_shape"
        (setKey "input_shape" t (del_problematic fs)) v e1
      have e3 := jsize_setKey_le "input_shape" t (del_problematic fs)
      have e4 := batch_action_rewrite_le v t hb
      have e5 := jsize_del_problematic_le fs
      omega

lemma mem_del_problematic (kv : String × Json) :
    ∀ l, kv ∈ del_problematic l → kv ∈ l ∧ kv.1 ∉ problematic_keys := by
  intro l
  induction l with
  | nil => intro h; simp [del_problematic] at h
  | cons kv' rest ih =>
    obtain ⟨k, v⟩ := kv'
    intro h
    by_cases hk : k ∈ problematic_keys
    · simp only [del_problematic, if_pos hk] at h
      obtain ⟨h1, h2⟩ := ih h
      exact ⟨List.mem_cons_of_mem _ h1, h2⟩
    · simp only [del_problematic, if_neg hk] at h
      rcases List.mem_cons.1 h with h | h
      · subst h
        exact ⟨List.mem_cons_self _ _, hk⟩
      · obtain ⟨h1, h2⟩ := ih h
        exact ⟨List.mem_cons_of_mem _ h1, h2⟩

lemma mem_delKey (k₀ : String) (kv : String × Json) :
    ∀ l, kv ∈ delKey k₀ l → kv ∈ l ∧ kv.1 ≠ k₀ := by
  intro l
  induction l with
  | nil => intro h; simp [delKey] at h
  | cons kv' rest ih =>
    obtain ⟨k, v⟩ := kv'
    intro h
    by_cases hk : k = k₀
    · simp only [delKey, if_pos hk] at h
      obtain ⟨h1, h2⟩ := ih h
      exact ⟨List.mem_cons_of_mem _ h1, h2⟩
    · simp only [delKey, if_neg hk] at h
      rcases List.mem_cons.1 h with h | h
      · subst h
        exact ⟨List.mem_cons_self _ _, hk⟩
      · obtain ⟨h1, h2⟩ := ih h
        exact ⟨List.mem_cons_of_mem _ h1, h2⟩

lemma mem_setKey (k₀ : String) (t : Json) (kv : String × Json) :
    ∀ l, kv ∈ setKey k₀ t l → kv ∈ l ∨ kv.1 = k₀ := by
  intro l
  induction l with
  | nil =>
    intro h
    simp only [setKey, List.mem_singleton] at h
    subst h
    exact Or.inr rfl
  | cons kv' rest ih =>
    obtain ⟨k, v⟩ := kv'
    intro h
    by_cases hk : k = k₀
    · simp only [setKey, if_pos hk] at h
      rcases List.mem_cons.1 h with h | h
      · subst h
        exact Or.inr hk
      · exact Or.inl (List.mem_cons_of_mem _ h)
    · simp only [setKey, if_neg hk] at h
      rcases List.mem_cons.1 h with h | h
      · subst h
        exact Or.inl (List.mem_cons_self _ _)
      · rcases ih h with h | h
        · exact Or.inl (List.mem_cons_of_mem _ h)
        · exact Or.inr h

lemma lookupKey_eq_none (k : String) :
    ∀ l, lookupKey l k = none → ∀ kv ∈ l, kv.1 ≠ k := by
  intro l
  induction l with
  | nil => intro _ kv h; simp at h
  | cons kv' rest ih =>
    obtain ⟨k', v⟩ := kv'
    intro h kv hm
    by_cases hk : k' = k
    · simp only [lookupKey] at h
      rw [if_pos hk] at h
      exact absurd h (by simp)
    · simp only [lookupKey] at h
      rw [if_neg hk] at h
      rcases List.mem_cons.1 hm with hm | hm
      · subst hm
        exact hk
      · exact ih h kv hm

lemma sanitize_shallow_keys (fs fs2 : List (String × Json))
    (h : sanitize_shallow fs = some fs2) :
    ∀ kv ∈ fs2, kv.1 ∉ bad_keys_all := by
  have hbad : ∀ k : String, k ∉ problematic_keys → k ≠ "batch_input_shape" →
      k ∉ bad_keys_all := by
    intro k h1 h2 hmem
    rcases List.mem_append.1 hmem with hm | hm
    · exact h1 hm
    · simp only [List.mem_singleton] at hm
      exact h2 hm
  rw [sanitize_shallow] at h
  split at h
  · rename_i hl
    cases h
    intro kv hm
    obtain ⟨h1, h2⟩ := mem_del_problematic kv fs hm
    exact hbad kv.1 h2 (lookupKey_eq_none _ _ hl kv hm)
  · rename_i v hl
    split at h
    · exact absurd h (by simp)
    · cases h
      intro kv hm
      obtain ⟨hm1, hne⟩ := mem_delKey _ kv _ hm
      obtain ⟨h1, h2⟩ := mem_del_problematic kv fs hm1
      exact hbad kv.1 h2 hne
    · rename_i t hb
      cases h
      intro kv hm
      obtain ⟨hm1, hne⟩ := mem_delKey _ kv _ hm
      rcases mem_setKey _ _ kv _ hm1 with hm2 | hm2
      · obtain ⟨h1, h2⟩ := mem_del_problematic kv fs hm2
        exact hbad kv.1 h2 hne
      · rw [hm2]
        decide

lemma clean_obj_inv (fs : List (String × Json)) (j' : Json)
    (h : clean_config_advanced (Json.obj fs) = some j') :
    ∃ fs2 fs3, sanitize_shallow fs = some fs2 ∧
      clean_config_fields fs2 = some fs3 ∧ j' = Json.obj fs3 := by
  simp only [clean_config_advanced] at h
  split at h
  · exact absurd h (by simp)
  · rename_i fs2 hs
    split at h
    · exact absurd h (by simp)
    · rename_i fs3 hf
      cases h
      exact ⟨fs2, fs3, hs, hf, rfl⟩

lemma clean_arr_inv (xs : List Json) (j' : Json)
    (h : clean_config_advanced (Json.arr xs) = some j') :
    ∃ ys, clean_config_elems xs = some ys ∧ j' = Json.arr ys := by
  simp only [clean_config_advanced] at h
  split at h
  · exact absurd h (by simp)
  · rename_i ys hy
    cases h
    exact ⟨ys, hy, rfl⟩

lemma clean_fields_cons_inv (k : String) (v : Json) (rest : List (String × Json))
    (out : List (String × Json))
    (h : clean_config_fields ((k, v) :: rest) = some out) :
    ∃ v' rest', clean_config_advanced v = some v' ∧
      clean_config_fields rest = some rest' ∧ out = (k, v') :: rest' := by
  simp only [clean_config_fields] at h
  split at h
  · rename_i v' rest' hv hr
    cases h
    exact ⟨v', rest', hv, hr, rfl⟩
  · exact absurd h (by simp)

lemma clean_elems_cons_inv (x : Json) (rest : List Json) (out : List Json)
    (h : clean_config_elems (x :: rest) = some out) :
    ∃ x' rest', clean_config_advanced x = some x' ∧
      clean_config_elems rest = some rest' ∧ out = x' :: rest' := by
  simp only [clean_config_elems] at h
  split at h
  · rename_i x' rest' hx hr
    cases h
    exact ⟨x', rest', hx, hr, rfl⟩
  · exact absurd h (by simp)

lemma clean_fields_lookup :
    ∀ (l l' : List (String × Json)) (k : String) (v : Json),
      clean_config_fields l = some l' → lookupKey l k = some v →
      ∃ v', lookupKey l' k = some v' ∧ clean_config_advanced v = some v' := by
  intro l
  induction l with
  | nil => intro l' k v _ hl; simp [lookupKey] at hl
  | cons kv rest ih =>
    obtain ⟨k₁, w⟩ := kv
    intro l' k v hc hl
    obtain ⟨w', rest', hw, hr, hout⟩ := clean_fields_cons_inv k₁ w rest l' hc
    subst hout
    by_cases hk : k₁ = k
    · simp only [lookupKey] at hl
      rw [if_pos hk] at hl
      cases hl
      refine ⟨w', ?_, hw⟩
      simp only [lookupKey]
      rw [if_pos hk]
    · simp only [lookupKey] at hl
      rw [if_neg hk] at hl
      obtain ⟨v', h1, h2⟩ := ih rest' k v hr hl
      refine ⟨v', ?_, h2⟩
      simp only [lookupKey]
      rw [if_neg hk]
      exact h1

lemma badKeyFreeFields_keys :
    ∀ fs, badKeyFreeFields fs = true → ∀ kv ∈ fs, kv.1 ∉ bad_keys_all := by
  intro fs
  induction fs with
  | nil => intro _ kv hm; simp at hm
  | cons kv' rest ih =>
    obtain ⟨k, v⟩ := kv'
    intro h kv hm
    simp only [badKeyFreeFields, Bool.and_eq_true] at h
    obtain ⟨⟨hk, _⟩, hr⟩ := h
    rcases List.mem_cons.1 hm with hm | hm
    · subst hm
      simpa using hk
    · exact ih hr kv hm

lemma del_problematic_eq_self :
    ∀ l, (∀ kv ∈ l, kv.1 ∉ problematic_keys) → del_problematic l = l := by
  intro l
  induction l with
  | nil => intro _; simp [del_problematic]
  | cons kv rest ih =>
    obtain ⟨k, v⟩ := kv
    intro h
    have hk : k ∉ problematic_keys := h (k, v) (List.mem_cons_self _ _)
    simp only [del_problematic, if_neg hk]
    rw [ih fun kv hm => h kv (List.mem_cons_of_mem _ hm)]

lemma lookupKey_eq_none_of (k : String) :
    ∀ l, (∀ kv ∈ l, kv.1 ≠ k) → lookupKey l k = none := by
  intro l
  induction l with
  | nil => intro _; simp [lookupKey]
  | cons kv rest ih =>
    obtain ⟨k', v⟩ := kv
    intro h
    have hk : k' ≠ k := h (k', v) (List.mem_cons_self _ _)
    simp only [lookupKey]
    rw [if_neg hk]
    exact ih fun kv hm => h kv (List.mem_cons_of_mem _ hm)

lemma clean_badKeyFree_strong (n : Nat) :
    ∀ j j', jsize j ≤ n → clean_config_advanced j = some j' →
      badKeyFree j' = true := by
  induction n using Nat.strong_induction_on with
  | _ n ih =>
    have hn1 : ∀ j j', jsize j < n → clean_config_advanced j = some j' →
        badKeyFree j' = true :=
      fun j j' hlt hc => ih (jsize j) hlt j j' le_rfl hc
    have helems : ∀ xs ys, jsize (Json.arr xs) ≤ n →
        clean_config_elems xs = some ys → badKeyFreeElems ys = true := by
      intro xs
      induction xs with
      | nil =>
        intro ys _ hc
        simp only [clean_config_elems] at hc
        cases hc
        simp [badKeyFreeElems]
      | cons x rest ihx =>
        intro ys hb hc
        obtain ⟨x', rest', hx, hr, hout⟩ := clean_elems_cons_inv x rest ys hc
        subst hout
        rw [jsize_arr_cons] at hb
        have hx' : badKeyFree x' = true :=
          hn1 x x' (by have := jsize_pos (Json.arr rest); omega) hx
        have hr' : badKeyFreeElems rest' = true :=
          ihx rest' (by have := jsize_pos x; omega) hr
        simp [badKeyFreeElems, hx', hr']
    have hfields : ∀ fs fs', jsize (Json.obj fs) ≤ n →
        (∀ kv ∈ fs, kv.1 ∉ bad_keys_all) →
        clean_config_fields fs = some fs' → badKeyFreeFields fs' = true := by
      intro fs
      induction fs with
      | nil =>
        intro fs' _ _ hc
        simp only [clean_config_fields] at hc
        cases hc
        simp [badKeyFreeFields]
      | cons kv rest ihf =>
        obtain ⟨k, v⟩ := kv
        intro fs' hb hkeys hc
        obtain ⟨v', rest', hv, hr, hout⟩ := clean_fields_cons_inv k v rest fs' hc
        subst hout
        rw [jsize_obj_cons] at hb
        have hv' : badKeyFree v' = true :=
          hn1 v v' (by have := jsize_pos (Json.obj rest); omega) hv
        have hr' : badKeyFreeFields rest' = true :=
          ihf rest' (by have := jsize_pos v; omega)
            (fun kv hm => hkeys kv (List.mem_cons_of_mem _ hm)) hr
        have hk : k ∉ bad_keys_all := hkeys (k, v) (List.mem_cons_self _ _)
        simp [badKeyFreeFields, hv', hr', hk]
    intro j j' hn hclean
    cases j with
    | null =>
      simp only [clean_config_advanced] at hclean
      cases hclean
      simp [badKeyFree]
    | bool b =>
      simp only [clean_config_advanced] at hclean
      cases hclean
      simp [badKeyFree]
    | num m =>
      simp only [clean_config_advanced] at hclean
      cases hclean
      simp [badKeyFree]
    | str s =>
      simp only [clean_config_advanced] at hclean
      cases hclean
      simp [badKeyFree]
    | arr xs =>
      obtain ⟨ys, h1, h2⟩ := clean_arr_inv xs j' hclean
      subst h2
      simp only [badKeyFree]
      exact helems xs ys hn h1
    | obj fs =>
      obtain ⟨fs2, fs3, hs, hf, hj⟩ := clean_obj_inv fs j' hclean
      subst hj
      simp only [badKeyFree]
      exact hfields fs2 fs3 (le_trans (jsize_sanitize_le fs fs2 hs) hn)
        (sanitize_shallow_keys fs fs2 hs) hf

lemma clean_of_badKeyFree_strong (n : Nat) :
    ∀ j, jsize j ≤ n → badKeyFree j = true →
      clean_config_advanced j = some j := by
  induction n using Nat.strong_induction_on with
  | _ n ih =>
    have hn1 : ∀ j, jsize j < n → badKeyFree j = true →
        clean_config_advanced j = some j :=
      fun j hlt hb => ih (jsize j) hlt j le_rfl hb
    have helems : ∀ xs, jsize (Json.arr xs) ≤ n → badKeyFreeElems xs = true →
        clean_config_elems xs = some xs := by
      intro xs
      induction xs with
      | nil => intro _ _; simp [clean_config_elems]
      | cons x rest ihx =>
        intro hb hfree
        rw [jsize_arr_cons] at hb
        simp only [badKeyFreeElems, Bool.and_eq_true] at hfree
        have hx := hn1 x (by have := jsize_pos (Json.arr rest); omega) hfree.1
        have hr := ihx (by have := jsize_pos x; omega) hfree.2
        simp [clean_config_elems, hx, hr]
    have hfields : ∀ fs, jsize (Json.obj fs) ≤ n → badKeyFreeFields fs = true →
        clean_config_fields fs = some fs := by
      intro fs
      induction fs with
      | nil => intro _ _; simp [clean_config_fields]
      | cons kv rest ihf =>
        obtain ⟨k, v⟩ := kv
        intro hb hfree
        rw [jsize_obj_cons] at hb
        simp only [badKeyFreeFields, Bool.and_eq_true] at hfree
        obtain ⟨⟨_, hv⟩, hr⟩ := hfree
        have hv' := hn1 v (by have := jsize_pos (Json.obj rest); omega) hv
        have hr' := ihf (by have := jsize_pos v; omega) hr
        simp [clean_config_fields, hv', hr']
    intro j hn hfree
    cases j with
    | null => simp [clean_config_advanced]
    | bool b => simp [clean_config_advanced]
    | num m => simp [clean_config_advanced]
    | str s => simp [clean_config_advanced]
    | arr xs =>
      simp only [badKeyFree] at hfree
      have h1 := helems xs hn hfree
      simp [clean_config_advanced, h1]
    | obj fs =>
      simp only [badKeyFree] at hfree
      have hkeys := badKeyFreeFields_keys fs hfree
      have h1 : del_problematic fs = fs :=
        del_problematic_eq_self fs
          (fun kv hm hkp => hkeys kv hm (List.mem_append.2 (Or.inl hkp)))
      have h2 : lookupKey fs "batch_input_shape" = none :=
        lookupKey_eq_none_of _ fs
          (fun kv hm heq => hkeys kv hm (by rw [heq]; decide))
      have hsan : sanitize_shallow fs = some fs := by
        rw [sanitize_shallow]
        simp only [h1, h2]
      have hfl := hfields fs hn hfree
      simp only [clean_config_advanced]
      split
      · rename_i heq
        rw [hsan] at heq
        exact absurd heq (by simp)
      · rename_i fs2 heq
        rw [hsan] at heq
        cases heq
        split
        · rename_i heq2
          rw [hfl] at heq2
          exact absurd heq2 (by simp)
        · rename_i fs3 heq2
          rw [hfl] at heq2
          cases heq2
          rfl

lemma lookupKey_del_problematic_bk :
    ∀ l v, lookupKey l "batch_input_shape" = some v →
      lookupKey (del_problematic l) "batch_input_shape" = some v := by
  intro l
  induction l with
  | nil => intro v h; simp [lookupKey] at h
  | cons kv rest ih =>
    obtain ⟨k', w⟩ := kv
    intro v h
    by_cases hk : k' = "batch_input_shape"
    · simp only [lookupKey] at h
      rw [if_pos hk] at h
      cases h
      have hkp : k' ∉ problematic_keys := by rw [hk]; decide
      simp only [del_problematic, if_neg hkp, lookupKey]
      rw [if_pos hk]
    · simp only [lookupKey] at h
      rw [if_neg hk] at h
      by_cases hkp : k' ∈ problematic_keys
      · simp only [del_problematic, if_pos hkp]
        exact ih v h
      · simp only [del_problematic, if_neg hkp, lookupKey]
        rw [if_neg hk]
        exact ih v h

lemma batch_action_arr (xs : List Json) (hlen : 1 < xs.length) :
    batch_action (Json.arr xs) = .rewrite (Json.arr (xs.drop 1)) := by
  cases xs with
  | nil => simp at hlen
  | cons x rest =>
    have ht : truthy (Json.arr (x :: rest)) = true := by simp [truthy]
    unfold batch_action
    rw [if_pos ht]
    show (if 1 < (x :: rest).length then
        BatchAction.rewrite (Json.arr ((x :: rest).drop 1))
      else BatchAction.deleteOnly) =
      BatchAction.rewrite (Json.arr ((x :: rest).drop 1))
    rw [if_pos hlen]

lemma sanitize_rewrite (fs fs2 : List (String × Json)) (xs : List Json)
    (hlook : lookupKey fs "batch_input_shape" = some (Json.arr xs))
    (hlen : 1 < xs.length) (h : sanitize_shallow fs = some fs2) :
    lookupKey fs2 "input_shape" = some (Json.arr (xs.drop 1)) := by
  have hl1 := lookupKey_del_problematic_bk fs _ hlook
  have hba := batch_action_arr xs hlen
  rw [sanitize_shallow] at h
  simp only [hl1, hba] at h
  cases h
  rw [lookupKey_delKey_ne _ _ _ (by decide)]
  exact lookupKey_setKey_self _ _ _

lemma clean_ex_config_eval :
    clean_config_advanced ex_config = some ex_config_clean := by
  have h5 : clean_config_advanced (Json.num 5) = some (Json.num 5) := by
    simp [clean_config_advanced]
  have hshape : clean_config_advanced (Json.arr [Json.num 128, Json.num 3]) =
      some (Json.arr [Json.num 128, Json.num 3]) := by
    simp [clean_config_advanced, clean_config_elems]
  have hsan : sanitize_shallow
      [("batch_input_shape", Json.arr [Json.null, Json.num 128, Json.num 3]),
       ("dtype", Json.str "float32"), ("units", Json.num 5)] =
      some [("units", Json.num 5),
            ("input_shape", Json.arr [Json.num 128, Json.num 3])] := rfl
  have hfl : clean_config_fields
      [("units", Json.num 5),
       ("input_shape", Json.arr [Json.num 128, Json.num 3])] =
      some [("units", Json.num 5),
            ("input_shape", Json.arr [Json.num 128, Json.num 3])] := by
    simp [clean_config_fields, h5, hshape]
  show clean_config_advanced
      (Json.obj [("batch_input_shape", Json.arr [Json.null, Json.num 128, Json.num 3]),
                 ("dtype", Json.str "float32"), ("units", Json.num 5)]) =
    some ex_config_clean
  simp only [clean_config_advanced]
  split
  · rename_i heq
    rw [hsan] at heq
    exact absurd heq (by simp)
  · rename_i fs2 heq
    rw [hsan] at heq
    cases heq
    split
    · rename_i heq2
      rw [hfl] at heq2
      exact absurd heq2 (by simp)
    · rename_i fs3 heq2
      rw [hfl] at heq2
      cases heq2
      rfl

/-- Claim C3: for every architecture-description tree the sanitizer completes
on, the output tree contains, at every nesting depth, none of the removed keys
(the denylist of lines 207-210 together with `batch_input_shape`) — stated for
every tree, hence for every subtree the recursion reaches — and wherever the
input mapping held a `batch_input_shape` list of length above one, the
sanitized mapping holds, under `input_shape`, the sanitized batch-exclusive
tail of that shape. -/
theorem c3_sanitizer_sound (j j' : Json)
    (h : clean_config_advanced j = some j') :
    badKeyFree j' = true ∧
    (∀ fs xs, j = Json.obj fs →
      lookupKey fs "batch_input_shape" = some (Json.arr xs) → 1 < xs.length →
      ∃ fs' v, j' = Json.obj fs' ∧ lookupKey fs' "input_shape" = some v ∧
        clean_config_advanced (Json.arr (xs.drop 1)) = some v) := by
  constructor
  · exact clean_badKeyFree_strong (jsize j) j j' le_rfl h
  · intro fs xs hj hlook hlen
    subst hj
    obtain ⟨fs2, fs3, hs, hf, hj'⟩ := clean_obj_inv fs j' h
    have hlook2 := sanitize_rewrite fs fs2 xs hlook hlen hs
    obtain ⟨v', hlv, hcv⟩ := clean_fields_lookup fs2 fs3 _ _ hf hlook2
    exact ⟨fs3, v', hj', hlv, hcv⟩

/-- Witness for C3: sanitizing the concrete config with a `dtype` field and a
batch-inclusive `batch_input_shape` of length 3 yields a tree with none of the
removed keys and with `input_shape` bound to the shape's tail. -/
theorem c3_witness :
    clean_config_advanced ex_config = some ex_config_clean ∧
    badKeyFree ex_config_clean = true ∧
    (∃ fs' v, ex_config_clean = Json.obj fs' ∧
      lookupKey fs' "input_shape" = some v ∧
      clean_config_advanced
        (Json.arr ([Json.null, Json.num 128, Json.num 3].drop 1)) = some v) := by
  have hc := clean_ex_config_eval
  have h := c3_sanitizer_sound ex_config ex_config_clean hc
  exact ⟨hc, h.1, h.2 _ [Json.null, Json.num 128, Json.num 3] rfl rfl (by decide)⟩

/-- Claim C4: the Config Sanitizer is idempotent — whenever sanitizing a tree
yields an output tree, sanitizing that output again yields it unchanged. -/
theorem c4_sanitizer_idempotent (j j' : Json)
    (h : clean_config_advanced j = some j') :
    clean_config_advanced j' = some j' :=
  clean_of_badKeyFree_strong (jsize j') j' le_rfl
    (clean_badKeyFree_strong (jsize j) j j' le_rfl h)

/-- Witness for C4, at the concrete config. -/
theorem c4_witness :
    clean_config_advanced ex_config = some ex_config_clean ∧
    clean_config_advanced ex_config_clean = some ex_config_clean := by
  have hc := clean_ex_config_eval
  exact ⟨hc, c4_sanitizer_idempotent ex_config ex_config_clean hc⟩

end ModelServer
